import Mathlib

/-!
Verification of the conversion-dispatch and PDF-manipulation engine of the
online-document-converter repository.

The frontend (`frontend/src/App.tsx` and its earlier single-page variant)
is embedded directly: the `SUPPORTED_CONVERSIONS` table, the extension
extraction `file.name.split('.').pop()?.toLowerCase() || ''`, and the
submit handlers.  The backend engine (validation funnel, workspace
manager, merge/split/compress operations, result packager) is not part of
the source tree; those components are modelled from the specification, as
marked in their doc comments.
-/

/-- The `SUPPORTED_CONVERSIONS` table of `App.tsx` (identical in the earlier
single-page variant): for each known source extension, the ordered list of
target formats offered.  Unknown keys give `[]`, matching the JavaScript
`SUPPORTED_CONVERSIONS[fileExt] || []` access pattern. -/
def SUPPORTED_CONVERSIONS (ext : String) : List String :=
  if ext = "pdf" then ["docx", "xlsx", "pptx", "jpg", "png"]
  else if ext = "doc" then ["pdf", "docx", "xlsx", "xls", "pptx", "ppt", "jpg", "png"]
  else if ext = "docx" then ["pdf", "doc", "xlsx", "xls", "pptx", "ppt", "jpg", "png"]
  else if ext = "xls" then ["pdf", "xlsx", "docx", "doc", "pptx", "ppt", "jpg", "png"]
  else if ext = "xlsx" then ["pdf", "xls", "docx", "doc", "pptx", "ppt", "jpg", "png"]
  else if ext = "ppt" then ["pdf", "pptx", "docx", "doc", "xlsx", "xls", "jpg", "png"]
  else if ext = "pptx" then ["pdf", "ppt", "docx", "doc", "xlsx", "xls", "jpg", "png"]
  else if ext = "jpg" then ["png", "pdf"]
  else if ext = "jpeg" then ["png", "pdf"]
  else if ext = "png" then ["jpg", "pdf"]
  else []

/-- The keys of the `SUPPORTED_CONVERSIONS` table, in source order. -/
def sourceExtensions : List String :=
  ["pdf", "doc", "docx", "xls", "xlsx", "ppt", "pptx", "jpg", "jpeg", "png"]

/-- The values of the `SupportedTargetFormat` union type of the frontend:
the nine formats a conversion may target. -/
def validTargetFormats : List String :=
  ["pdf", "doc", "docx", "ppt", "pptx", "xls", "xlsx", "jpg", "png"]

/-- The six Office formats named by the specification (doc/docx, xls/xlsx,
ppt/pptx). -/
def officeFormats : List String := ["doc", "docx", "xls", "xlsx", "ppt", "pptx"]

/-- The image formats named by the specification. -/
def imageFormats : List String := ["jpg", "jpeg", "png"]

/-- For an image format, "the other image format" in the sense of the
specification: jpg and jpeg are the JPEG format, whose partner is png;
png's partner is jpg. -/
def otherImageFormat (ext : String) : String :=
  if ext = "png" then "jpg" else "png"

/-- Modelled from the spec: the fixed compatibility graph of §4.1, stated in
the specification's own words — PDF reaches the modern Office formats and
the images; each Office family member reaches pdf, every other Office
format (both legacy and modern sub-variants), jpg and png; each image
format reaches the other image format and pdf; anything else reaches
nothing.  This definition exists only to be compared with the table
`SUPPORTED_CONVERSIONS` taken from the source. -/
def specReachableTargets (ext : String) : List String :=
  if ext = "pdf" then ["docx", "xlsx", "pptx", "jpg", "png"]
  else if ext ∈ officeFormats then
    "pdf" :: (officeFormats.filter (fun f => f ≠ ext)) ++ ["jpg", "png"]
  else if ext ∈ imageFormats then [otherImageFormat ext, "pdf"]
  else []

/-! ## Filename extension extraction

`App.tsx` computes the lookup key as
`file.name.split('.').pop()?.toLowerCase() || ''`.  JavaScript strings are
embedded as `List Char`; `jsSplitDot` mirrors `String.prototype.split('.')`
(which always returns a non-empty array, `[""]` on the empty string). -/

/-- JavaScript `string.split(sep)` for a single-character separator, on a
string viewed as a character list: the (always non-empty) list of
separated chunks, with empty chunks kept exactly as in JavaScript
(`"a."` ↦ `["a", ""]`, `""` ↦ `[""]`). -/
def jsSplit (sep : Char) : List Char → List (List Char)
  | [] => [[]]
  | c :: cs =>
    match jsSplit sep cs with
    | [] => [[]]
    | chunk :: rest =>
      if c = sep then [] :: chunk :: rest else (c :: chunk) :: rest

/-- JavaScript `name.split('.')`. -/
def jsSplitDot : List Char → List (List Char) := jsSplit '.'

/-- The extension key of a file name: the last chunk of the dot-split,
lowercased — the embedding of `name.split('.').pop()?.toLowerCase() || ''`
(the `|| ''` only replaces an empty string by itself, so it is the
identity here). -/
def extOfChars (name : List Char) : List Char :=
  ((jsSplitDot name).getLastD []).map Char.toLower

/-- String-level wrapper of `extOfChars`. -/
def extOf (name : String) : String :=
  ⟨extOfChars name.data⟩

/-- The `availableFormats` memo of `App.tsx` for a selected file:
`SUPPORTED_CONVERSIONS[fileExt] || []`. -/
def availableFormats (name : String) : List String :=
  SUPPORTED_CONVERSIONS (extOf name)

/-- Outcome of the convert-page submit handler (`handleSubmit` of the
single-page variant, which performs the full check sequence): no file
selected, extension not supported, target equal to source extension, or a
conversion request sent with the given target. -/
inductive SubmitResult where
  | noFile : SubmitResult
  | unsupportedExtension : SubmitResult
  | sameFormat : SubmitResult
  | convertRequested (target : String) : SubmitResult
deriving DecidableEq, Repr

/-- The `handleSubmit` handler of the single-page variant of `App.tsx`:
reject when no file is selected; reject when `availableFormats` is empty
(unknown extension); reject when the file extension equals the target
format; otherwise call `convertDocument(file, targetFormat)`. -/
def handleSubmit (file : Option String) (targetFormat : String) : SubmitResult :=
  match file with
  | none => .noFile
  | some name =>
    if availableFormats name = [] then .unsupportedExtension
    else if extOf name = targetFormat then .sameFormat
    else .convertRequested targetFormat

/-! ## The engine (spec-modelled)

The backend engine (FastAPI `main.py` / `converters.py`) is not part of
the source tree; the definitions below are modelled from the
specification (§4.2–§4.6, §7) and carry `Modelled from the spec:` in
their doc comments. -/

/-- Modelled from the spec: the error taxonomy of §7 (the backend error
kinds are not in the source tree). -/
inductive ErrorKind where
  | UnsupportedExtension | UnsupportedConversion | PayloadTooLarge
  | InvalidPdfInput | InvalidPageRange | ConversionTimeout
  | ConversionToolFailure | OutputNotProduced | WorkspaceIOError
deriving DecidableEq, Repr

deriving instance DecidableEq for Except

/-- The observable steps of a conversion request, used to state ordering
and "no external process is spawned" properties. -/
inductive ConvEvent where
  | extCheck | sizeCheck | capCheck | dispatch | spawn
deriving DecidableEq, Repr

/-- Modelled from the spec: the configuration the engine consumes but does
not own (§6) — whitelist of accepted source extensions and maximum upload
size in bytes. -/
structure EngineConfig where
  whitelist : List String
  maxSize : Nat

/-- Modelled from the spec: a generic conversion request after staging —
source extension, payload size, requested target format. -/
structure ConvRequest where
  ext : String
  size : Nat
  target : String

/-- Modelled from the spec: the conversion strategies of §4.3. -/
inductive Strategy where
  | officeRender | pdfToOfficeExtract | pdfToImageRender | imageToPdf | imageConvert
deriving DecidableEq, Repr

/-- Modelled from the spec: the strategy decision table of §4.3, keyed on
(source extension, target format); pairs absent from the Capability Table
fail with `UnsupportedConversion`. -/
def selectStrategy (ext target : String) : Except ErrorKind Strategy :=
  if target ∈ SUPPORTED_CONVERSIONS ext then
    if ext ∈ officeFormats then .ok .officeRender
    else if ext = "pdf" then
      if target ∈ imageFormats then .ok .pdfToImageRender
      else .ok .pdfToOfficeExtract
    else if target = "pdf" then .ok .imageToPdf
    else .ok .imageConvert
  else .error .UnsupportedConversion

/-- Modelled from the spec: the validation funnel of §4.3 — extension
whitelist check, then size-limit check, then capability check, then
strategy dispatch; a spawn event is emitted only when dispatch succeeds.
Returns the emitted event trace together with the outcome. -/
def convertPipeline (cfg : EngineConfig) (req : ConvRequest) :
    List ConvEvent × Except ErrorKind Strategy :=
  if req.ext ∉ cfg.whitelist then
    ([.extCheck], .error .UnsupportedExtension)
  else if cfg.maxSize < req.size then
    ([.extCheck, .sizeCheck], .error .PayloadTooLarge)
  else if req.target ∉ SUPPORTED_CONVERSIONS req.ext then
    ([.extCheck, .sizeCheck, .capCheck], .error .UnsupportedConversion)
  else
    match selectStrategy req.ext req.target with
    | .ok s => ([.extCheck, .sizeCheck, .capCheck, .dispatch, .spawn], .ok s)
    | .error e => ([.extCheck, .sizeCheck, .capCheck, .dispatch], .error e)

/-! ## Temporary workspace manager (spec-modelled) -/

/-- Modelled from the spec: the possible ways a request body can end
(§4.2): a normal result, a tool failure, a validation failure, or an
unexpected fault. -/
inductive ReqOutcome where
  | ok (payload : List Nat)
  | toolFailure (kind : ErrorKind)
  | validationFailure (kind : ErrorKind)
  | fault
deriving DecidableEq, Repr

/-- A filesystem path as a list of components. -/
abbrev FsPath := List String

/-- `p` lies inside (or is) the directory `dir`. -/
def insideDir (dir p : FsPath) : Bool :=
  decide ((List.take (List.length dir) p) = dir)

/-- Modelled from the spec: a whole request through the Temporary
Workspace Manager (§4.2).  `fs` is the set of existing paths; `acquire`
creates the scratch directory `dir`, the body writes `created` files
inside it and ends with outcome `out`, and `release` removes the
directory tree on every exit path.  Returns the outcome and the final
filesystem. -/
def runRequest (fs : List FsPath) (dir : FsPath) (created : List FsPath)
    (out : ReqOutcome) : ReqOutcome × List FsPath :=
  let staged : List FsPath := dir :: fs ++ created.map (fun f => (dir : List String) ++ f)
  (out, staged.filter (fun p => !insideDir dir p))

/-! ## PDF operations engine (spec-modelled)

A PDF payload is modelled as it appears to the engine after parsing: a
list of page contents (one abstract content value per page), or a
malformed payload that fails to parse. -/

/-- Modelled from the spec: an uploaded payload — a syntactically valid
PDF with its list of page contents, or a malformed payload. -/
inductive Payload where
  | validPdf (pages : List Nat)
  | malformed (raw : List Nat)
deriving DecidableEq, Repr

/-- Modelled from the spec: parsing an uploaded payload as a PDF. -/
def parsePdf : Payload → Option (List Nat)
  | .validPdf pages => some pages
  | .malformed _ => none

/-- Parse every payload of a list as a PDF, in order; `none` if any
payload fails to parse. -/
def parseAllPdfs : List Payload → Option (List (List Nat))
  | [] => some []
  | p :: ps =>
    match parsePdf p, parseAllPdfs ps with
    | some d, some ds => some (d :: ds)
    | _, _ => none

/-- Modelled from the spec: the merge operation of §4.5 — open every input
in request order, append all pages of each into one output; fail with
`InvalidPdfInput` if any input fails to parse, returning no partial
result. -/
def mergePdfs (inputs : List Payload) : Except ErrorKind (List Nat) :=
  match parseAllPdfs inputs with
  | some pageLists => .ok pageLists.flatten
  | none => .error .InvalidPdfInput

/-- The `handleMergePDF` handler of `App.tsx`: with fewer than 2 selected
files it sets an error message and returns without calling `mergePDFs`;
otherwise it sends the merge request.  The boolean records whether the
backend merge was invoked. -/
def handleMergePDF (files : List Payload) :
    Except String (Except ErrorKind (List Nat)) × Bool :=
  if files.length < 2 then
    (.error "Please select at least 2 PDF files to merge.", false)
  else
    (.ok (mergePdfs files), true)

/-! ## Split operation (spec-modelled) -/

/-- The numeric value of a decimal digit character, `none` otherwise. -/
def digitVal? (c : Char) : Option Nat :=
  if c.isDigit then some (c.toNat - 48) else none

/-- Parse a non-empty all-digit character list as a decimal `Nat`. -/
def charsToNat? (cs : List Char) : Option Nat :=
  match cs with
  | [] => none
  | _ =>
    cs.foldl (fun acc c => acc.bind (fun n => (digitVal? c).map (fun d => n * 10 + d)))
      (some 0)

/-- Modelled from the spec: parse one range of the grammar
`range = N | N '-' M` (§4.5), as a 1-indexed inclusive interval. -/
def parseOneRange (cs : List Char) : Option (Nat × Nat) :=
  match jsSplit '-' cs with
  | [n] => (charsToNat? n).map (fun v => (v, v))
  | [a, b] =>
    match charsToNat? a, charsToNat? b with
    | some x, some y => some (x, y)
    | _, _ => none
  | _ => none

/-- Modelled from the spec: parse a page-range expression of the grammar
`range (',' range)*` (§4.5); `none` on malformed text. -/
def parsePageRanges (s : String) : Option (List (Nat × Nat)) :=
  (jsSplit ',' s.data).mapM parseOneRange

/-- A range is within bounds for a document of `total` pages when it is
1-indexed, ordered and ends at or before the last page (§3, §4.5). -/
def rangeInBounds (total : Nat) (r : Nat × Nat) : Bool :=
  1 ≤ r.1 && r.1 ≤ r.2 && r.2 ≤ total

/-- Modelled from the spec: extract the pages of the 1-indexed inclusive
interval `r` from `pages`, in ascending order. -/
def extractRange (pages : List Nat) (r : Nat × Nat) : List Nat :=
  (pages.drop (r.1 - 1)).take (r.2 - r.1 + 1)

/-- Modelled from the spec: the result payload assembled by the Result
Packager (§4.6) — a single PDF, or a zip archive of named entries. -/
inductive SplitOutput where
  | single (pdf : List Nat)
  | zipArchive (entries : List (String × List Nat))
deriving DecidableEq, Repr

/-- Modelled from the spec: number the split outputs `page_1.pdf`,
`page_2.pdf`, … starting at index `i`. -/
def zipEntriesFrom (i : Nat) : List (List Nat) → List (String × List Nat)
  | [] => []
  | o :: os => ("page_" ++ Nat.repr i ++ ".pdf", o) :: zipEntriesFrom (i + 1) os

/-- Modelled from the spec: the Result Packager for split outputs (§4.6) —
a single output is returned as-is, several are bundled into a zip archive
with entry names `page_1.pdf`, `page_2.pdf`, …. -/
def packageSplit (outs : List (List Nat)) : SplitOutput :=
  match outs with
  | [o] => .single o
  | _ => .zipArchive (zipEntriesFrom 1 outs)

/-- Modelled from the spec: the split engine after range parsing — checks
every parsed range against the page count before any extraction, then
extracts each range into an independent output and packages the result.
The returned list records one extraction event per extracted range. -/
def splitRanges (pages : List Nat) (rs : List (Nat × Nat)) :
    List (Nat × Nat) × Except ErrorKind SplitOutput :=
  if rs.all (rangeInBounds pages.length) then
    (rs, .ok (packageSplit (rs.map (extractRange pages))))
  else
    ([], .error .InvalidPageRange)

/-- Modelled from the spec: the whole split operation of §4.5 — parse the
page-range expression, fail with `InvalidPageRange` on malformed or
out-of-bounds ranges before any extraction runs, otherwise extract and
package.  An empty list of ranges (impossible under the grammar, which
requires at least one range) is also rejected. -/
def splitPdf (pages : List Nat) (rangeText : String) :
    List (Nat × Nat) × Except ErrorKind SplitOutput :=
  match parsePageRanges rangeText with
  | none => ([], .error .InvalidPageRange)
  | some [] => ([], .error .InvalidPageRange)
  | some rs => splitRanges pages rs

/-- The canonical order of conversion-request steps: extension whitelist
check, size-limit check, capability check, strategy dispatch, process
spawn. -/
def convertEventOrder : List ConvEvent :=
  [.extCheck, .sizeCheck, .capCheck, .dispatch, .spawn]

/-! ## Helper lemmas -/

/-- The entry names produced by `zipEntriesFrom i` are
`page_i.pdf, page_(i+1).pdf, …`. -/
theorem zipEntriesFrom_names (outs : List (List Nat)) :
    ∀ i, (zipEntriesFrom i outs).map Prod.fst
      = (List.range outs.length).map (fun k => "page_" ++ Nat.repr (i + k) ++ ".pdf") := by
  induction outs with
  | nil => intro i; simp [zipEntriesFrom]
  | cons o os ih =>
    intro i
    simp only [zipEntriesFrom, List.map_cons, List.length_cons,
      List.range_succ_eq_map, ih (i + 1), List.map_map]
    congr 1
    apply List.map_congr_left
    intro k _
    have h : i + 1 + k = i + (k + 1) := by omega
    simp [Function.comp, h]

/-- The entry contents produced by `zipEntriesFrom` are exactly the given
outputs, in order. -/
theorem zipEntriesFrom_snds (outs : List (List Nat)) :
    ∀ i, (zipEntriesFrom i outs).map Prod.snd = outs := by
  induction outs with
  | nil => intro i; simp [zipEntriesFrom]
  | cons o os ih => intro i; simp [zipEntriesFrom, ih (i + 1)]

/-- Parsing a list of syntactically valid PDFs recovers their page lists
in order. -/
theorem parseAllPdfs_validPdfs (docs : List (List Nat)) :
    parseAllPdfs (docs.map Payload.validPdf) = some docs := by
  induction docs with
  | nil => rfl
  | cons d ds ih => simp [parseAllPdfs, parsePdf, ih]

/-- `jsSplit` always returns at least one chunk, as JavaScript `split`
does. -/
theorem jsSplit_ne_nil (sep : Char) : ∀ l, jsSplit sep l ≠ []
  | [] => by simp [jsSplit]
  | c :: cs => by
    obtain ⟨chunk, rest, hcr⟩ := List.exists_cons_of_ne_nil (jsSplit_ne_nil sep cs)
    simp only [jsSplit, hcr]
    split <;> simp

/-- Splitting a string that does not contain the separator yields the
whole string as the only chunk. -/
theorem jsSplit_of_not_mem (sep : Char) : ∀ l, sep ∉ l → jsSplit sep l = [l]
  | [] => fun _ => rfl
  | c :: cs => fun h => by
    have hc : c ≠ sep := fun e => h (e ▸ List.mem_cons_self c cs)
    have ih := jsSplit_of_not_mem sep cs (fun hm => h (List.mem_cons_of_mem c hm))
    simp [jsSplit, ih, hc]

/-- Splitting a string that contains the separator yields at least two
chunks. -/
theorem jsSplit_length_of_mem (sep : Char) : ∀ l, sep ∈ l → 2 ≤ (jsSplit sep l).length
  | [] => fun h => absurd h (List.not_mem_nil sep)
  | c :: cs => fun h => by
    obtain ⟨chunk, rest, hcr⟩ := List.exists_cons_of_ne_nil (jsSplit_ne_nil sep cs)
    by_cases hc : c = sep
    · simp [jsSplit, hcr, hc]
    · have hmem : sep ∈ cs := by
        rcases List.mem_cons.mp h with he | hm
        · exact absurd he.symm hc
        · exact hm
      have ih := jsSplit_length_of_mem sep cs hmem
      rw [hcr] at ih
      simp only [jsSplit, hcr, if_neg hc, List.length_cons]
      simp only [List.length_cons] at ih
      omega

/-- Unfolding equation of `jsSplit` on a cons cell. -/
theorem jsSplit_cons (sep c : Char) (cs : List Char) :
    jsSplit sep (c :: cs) =
      match jsSplit sep cs with
      | [] => [[]]
      | chunk :: rest =>
        if c = sep then [] :: chunk :: rest else (c :: chunk) :: rest := rfl

/-- Unfolding equation of `jsSplit` on a cons cell, given the split of the
tail. -/
theorem jsSplit_cons_eq (sep c : Char) (cs chunk : List Char)
    (rest : List (List Char)) (h : jsSplit sep cs = chunk :: rest) :
    jsSplit sep (c :: cs) =
      if c = sep then [] :: chunk :: rest else (c :: chunk) :: rest := by
  rw [jsSplit_cons, h]

/-- The default value of `getLastD` is irrelevant on a non-empty list. -/
theorem getLastD_default_irrel {α : Type} (l : List α) (h : l ≠ []) (d d' : α) :
    l.getLastD d = l.getLastD d' := by
  cases l with
  | nil => exact absurd rfl h
  | cons a l => rw [List.getLastD_cons, List.getLastD_cons]

/-- The last chunk of a dot-split only depends on the text after the last
dot. -/
theorem jsSplit_getLastD_append (pre post : List Char) :
    (jsSplit '.' (pre ++ '.' :: post)).getLastD []
      = (jsSplit '.' post).getLastD [] := by
  induction pre with
  | nil =>
    obtain ⟨chunk, rest, hcr⟩ := List.exists_cons_of_ne_nil (jsSplit_ne_nil '.' post)
    simp [jsSplit, hcr, List.getLastD_cons]
  | cons c pre ih =>
    obtain ⟨chunk, rest, hcr⟩ :=
      List.exists_cons_of_ne_nil (jsSplit_ne_nil '.' (pre ++ '.' :: post))
    have hlen := jsSplit_length_of_mem '.' (pre ++ '.' :: post) (by simp)
    rw [hcr] at hlen
    have hrest : rest ≠ [] := by
      cases rest
      · simp at hlen
      · simp
    rw [hcr] at ih
    rw [List.cons_append, jsSplit_cons_eq '.' c _ chunk rest hcr]
    by_cases hc : c = '.'
    · rw [if_pos hc, List.getLastD_cons, List.getLastD_cons]
      rw [List.getLastD_cons] at ih
      exact ih
    · rw [if_neg hc, List.getLastD_cons]
      rw [List.getLastD_cons] at ih
      rw [getLastD_default_irrel rest hrest (c :: chunk) chunk]
      exact ih

/-- A name without a dot is its own (lowercased) extension. -/
theorem extOfChars_no_dot (name : List Char) (h : '.' ∉ name) :
    extOfChars name = name.map Char.toLower := by
  unfold extOfChars jsSplitDot
  rw [jsSplit_of_not_mem _ _ h]
  rfl

/-! ## Claim theorems -/

/-- C1: the Format Capability Table maps every known source extension to
exactly the target set of the fixed compatibility graph — pdf to
{docx, xlsx, pptx, jpg, png}; each Office family member to {pdf, every
other Office member in both legacy and modern sub-variant, jpg, png};
each image format to {the other image format, pdf}. -/
theorem capabilityTable_matches_spec :
    ∀ ext ∈ sourceExtensions,
      (SUPPORTED_CONVERSIONS ext).toFinset = (specReachableTargets ext).toFinset := by
  decide

/-- Witness for C1 at the concrete extension `doc`. -/
theorem capabilityTable_matches_spec_witness :
    "doc" ∈ sourceExtensions ∧
      (SUPPORTED_CONVERSIONS "doc").toFinset = (specReachableTargets "doc").toFinset :=
  ⟨by decide, capabilityTable_matches_spec "doc" (by decide)⟩

/-- C2: a conversion request whose target format equals the source
extension is rejected (the `fileExt === targetFormat` guard of
`handleSubmit`), and no source extension's entry in the Capability Table
lists a target equal to that source. -/
theorem targetEqualsSource_rejected :
    (∀ (name t : String), t ∈ validTargetFormats → extOf name = t →
        handleSubmit (some name) t = .sameFormat) ∧
    (∀ e ∈ sourceExtensions, e ∉ SUPPORTED_CONVERSIONS e) := by
  constructor
  · intro name t ht hext
    have h1 : availableFormats name = SUPPORTED_CONVERSIONS t := by
      rw [availableFormats, hext]
    simp only [handleSubmit, h1, hext]
    fin_cases ht <;> decide
  · decide

/-- Witness for C2 at the concrete file `x.pdf` with target `pdf`. -/
theorem targetEqualsSource_rejected_witness :
    ("pdf" : String) ∈ validTargetFormats ∧ extOf "x.pdf" = "pdf" ∧
      handleSubmit (some "x.pdf") "pdf" = .sameFormat :=
  ⟨by decide, by decide,
    targetEqualsSource_rejected.1 "x.pdf" "pdf" (by decide) (by decide)⟩

/-- C3: for every request outcome — normal return, tool failure,
validation failure, or unexpected fault — the scratch workspace's release
runs and removes the scratch directory and every file created in it, so
neither exists after the request ends. -/
theorem workspace_always_released :
    ∀ (fs : List FsPath) (dir : FsPath) (created : List FsPath) (out : ReqOutcome),
      (runRequest fs dir created out).1 = out ∧
      dir ∉ (runRequest fs dir created out).2 ∧
      (∀ f ∈ created, ((dir : List String) ++ f) ∉ (runRequest fs dir created out).2) := by
  intro fs dir created out
  refine ⟨rfl, ?_, ?_⟩
  · simp [runRequest, List.mem_filter, insideDir]
  · intro f hf
    simp [runRequest, List.mem_filter, insideDir, List.take_left]

/-- Witness for C3: a faulting request leaves neither the scratch
directory nor its staged input behind. -/
theorem workspace_always_released_witness :
    (["tmp", "req1"] : FsPath) ∉
        (runRequest [["data"]] ["tmp", "req1"] [["input.pdf"]] .fault).2 ∧
      (["tmp", "req1", "input.pdf"] : FsPath) ∉
        (runRequest [["data"]] ["tmp", "req1"] [["input.pdf"]] .fault).2 :=
  ⟨(workspace_always_released [["data"]] ["tmp", "req1"] [["input.pdf"]] .fault).2.1,
    (workspace_always_released [["data"]] ["tmp", "req1"] [["input.pdf"]] .fault).2.2
      ["input.pdf"] (by decide)⟩

/-- C4: every conversion request's trace is a prefix of the canonical
order extension check → size check → capability check → dispatch → spawn,
and whenever the request fails, no process-spawn event occurs. -/
theorem validation_order_and_no_spawn_on_failure :
    ∀ (cfg : EngineConfig) (req : ConvRequest),
      (∃ n, (convertPipeline cfg req).1 = convertEventOrder.take n) ∧
      (∀ e, (convertPipeline cfg req).2 = .error e →
        ConvEvent.spawn ∉ (convertPipeline cfg req).1) := by
  intro cfg req
  unfold convertPipeline
  split
  · exact ⟨⟨1, by decide⟩, fun e _ => by decide⟩
  · split
    · exact ⟨⟨2, by decide⟩, fun e _ => by decide⟩
    · split
      · exact ⟨⟨3, by decide⟩, fun e _ => by decide⟩
      · split
        · exact ⟨⟨5, by simp [convertEventOrder]⟩, fun e he => by simp at he⟩
        · exact ⟨⟨4, by simp [convertEventOrder]⟩, fun e _ => by simp [convertEventOrder]⟩

/-- Witness for C4: a request with an extension outside the whitelist
fails and spawns nothing. -/
theorem validation_order_and_no_spawn_on_failure_witness :
    (convertPipeline ⟨["pdf"], 100⟩ ⟨"zzz", 10, "pdf"⟩).2 =
        .error .UnsupportedExtension ∧
      ConvEvent.spawn ∉ (convertPipeline ⟨["pdf"], 100⟩ ⟨"zzz", 10, "pdf"⟩).1 :=
  ⟨by decide,
    (validation_order_and_no_spawn_on_failure ⟨["pdf"], 100⟩ ⟨"zzz", 10, "pdf"⟩).2
      .UnsupportedExtension (by decide)⟩

/-- C5: for a split request with valid ranges, exactly one range yields a
single PDF, and more than one range yields a zip archive whose entries
are named `page_1.pdf`, `page_2.pdf`, … and hold the extracted ranges in
order. -/
theorem split_result_packaging :
    ∀ (pages : List Nat) (rs : List (Nat × Nat)),
      rs.all (rangeInBounds pages.length) = true →
      (∀ r, rs = [r] →
        (splitRanges pages rs).2 = .ok (.single (extractRange pages r))) ∧
      (1 < rs.length →
        ∃ entries, (splitRanges pages rs).2 = .ok (.zipArchive entries) ∧
          entries.map Prod.fst =
            (List.range rs.length).map (fun k => "page_" ++ Nat.repr (1 + k) ++ ".pdf") ∧
          entries.map Prod.snd = rs.map (extractRange pages)) := by
  intro pages rs hvalid
  constructor
  · intro r hr
    subst hr
    simp [splitRanges, hvalid, packageSplit]
  · intro hlen
    refine ⟨zipEntriesFrom 1 (rs.map (extractRange pages)), ?_, ?_, ?_⟩
    · simp only [splitRanges, hvalid, if_pos]
      match rs, hlen with
      | r₁ :: r₂ :: rest, _ => simp [packageSplit]
    · rw [zipEntriesFrom_names, List.length_map]
    · rw [zipEntriesFrom_snds]

/-- Witness for C5 at a three-page document with the two ranges 1-2 and
3-3. -/
theorem split_result_packaging_witness :
    (∀ r, ([(1, 2), (3, 3)] : List (Nat × Nat)) = [r] →
      (splitRanges [10, 20, 30] [(1, 2), (3, 3)]).2 =
        .ok (.single (extractRange [10, 20, 30] r))) ∧
    (1 < ([(1, 2), (3, 3)] : List (Nat × Nat)).length →
      ∃ entries, (splitRanges [10, 20, 30] [(1, 2), (3, 3)]).2 =
          .ok (.zipArchive entries) ∧
        entries.map Prod.fst =
          (List.range ([(1, 2), (3, 3)] : List (Nat × Nat)).length).map
            (fun k => "page_" ++ Nat.repr (1 + k) ++ ".pdf") ∧
        entries.map Prod.snd =
          ([(1, 2), (3, 3)] : List (Nat × Nat)).map (extractRange [10, 20, 30])) :=
  split_result_packaging [10, 20, 30] [(1, 2), (3, 3)] (by decide)

/-- C6: a merge with fewer than 2 inputs is rejected with an error before
any merging is attempted, and a merge of 2 or more valid PDF inputs
produces one output whose pages preserve the input order. -/
theorem merge_requires_two_and_preserves_order :
    ∀ (files : List Payload),
      (files.length < 2 →
        (handleMergePDF files).2 = false ∧
        (handleMergePDF files).1 =
          .error "Please select at least 2 PDF files to merge.") ∧
      (2 ≤ files.length →
        (handleMergePDF files).2 = true ∧
        ∀ (docs : List (List Nat)), files = docs.map Payload.validPdf →
          (handleMergePDF files).1 = .ok (.ok docs.flatten)) := by
  intro files
  constructor
  · intro hlt
    simp [handleMergePDF, hlt]
  · intro hge
    have hnot : ¬ files.length < 2 := by omega
    refine ⟨by simp [handleMergePDF, hnot], ?_⟩
    intro docs hdocs
    subst hdocs
    simp only [List.length_map] at hnot
    simp [handleMergePDF, hnot, mergePdfs, parseAllPdfs_validPdfs]

/-- Witness for C6: one input is rejected without merging; two valid
inputs merge into their concatenated pages. -/
theorem merge_requires_two_and_preserves_order_witness :
    ((handleMergePDF [.validPdf [1]]).2 = false ∧
      (handleMergePDF [.validPdf [1]]).1 =
        .error "Please select at least 2 PDF files to merge.") ∧
    (handleMergePDF [.validPdf [1, 2], .validPdf [3]]).1 =
      .ok (.ok [1, 2, 3]) :=
  ⟨(merge_requires_two_and_preserves_order [.validPdf [1]]).1 (by decide),
    ((merge_requires_two_and_preserves_order
        [.validPdf [1, 2], .validPdf [3]]).2 (by decide)).2
      [[1, 2], [3]] rfl⟩

/-- C7: every source extension outside the Capability Table has an empty
set of reachable targets, and the submit handler rejects the conversion
instead of executing it. -/
theorem unknownExtension_rejected :
    ∀ (name : String), extOf name ∉ sourceExtensions →
      availableFormats name = [] ∧
      ∀ t, handleSubmit (some name) t = .unsupportedExtension := by
  intro name h
  simp only [sourceExtensions, List.mem_cons, List.not_mem_nil, or_false, not_or] at h
  obtain ⟨h1, h2, h3, h4, h5, h6, h7, h8, h9, h10⟩ := h
  have hempty : availableFormats name = [] := by
    rw [availableFormats, SUPPORTED_CONVERSIONS,
      if_neg h1, if_neg h2, if_neg h3, if_neg h4, if_neg h5,
      if_neg h6, if_neg h7, if_neg h8, if_neg h9, if_neg h10]
  exact ⟨hempty, fun t => by simp [handleSubmit, hempty]⟩

/-- Witness for C7 at the concrete file `file.zzz`. -/
theorem unknownExtension_rejected_witness :
    extOf "file.zzz" ∉ sourceExtensions ∧
      availableFormats "file.zzz" = [] ∧
      handleSubmit (some "file.zzz") "pdf" = .unsupportedExtension :=
  ⟨by decide, (unknownExtension_rejected "file.zzz" (by decide)).1,
    (unknownExtension_rejected "file.zzz" (by decide)).2 "pdf"⟩

/-- C8: a split request whose range text is malformed or references a
page out of bounds fails with `InvalidPageRange`, performs no extraction
and produces zero output files. -/
theorem split_invalid_range_rejected :
    ∀ (pages : List Nat) (txt : String),
      (parsePageRanges txt = none ∨
       ∃ rs, parsePageRanges txt = some rs ∧
         rs.all (rangeInBounds pages.length) = false) →
      splitPdf pages txt = ([], .error .InvalidPageRange) := by
  intro pages txt h
  unfold splitPdf
  rcases h with hnone | ⟨rs, hsome, hbad⟩
  · rw [hnone]
  · rw [hsome]
    match rs, hbad with
    | [], hbad => simp at hbad
    | r :: rest, hbad => simp [splitRanges, hbad]

/-- Witness for C8: the range `0-2` on a two-page document is rejected. -/
theorem split_invalid_range_rejected_witness :
    splitPdf [1, 2] "0-2" = ([], .error .InvalidPageRange) :=
  split_invalid_range_rejected [1, 2] "0-2"
    (Or.inr ⟨[(0, 2)], by decide, by decide⟩)

/-- C9: splitting a non-empty PDF of N pages with the single range 1-N
yields exactly one output PDF whose pages are identical to the input. -/
theorem split_roundTrip :
    ∀ (pages : List Nat), pages ≠ [] →
      splitRanges pages [(1, pages.length)] =
        ([(1, pages.length)], .ok (.single pages)) := by
  intro pages h
  have hpos : 1 ≤ pages.length := List.length_pos.mpr h
  have hb : rangeInBounds pages.length (1, pages.length) = true := by
    simp [rangeInBounds, hpos]
  have hext : extractRange pages (1, pages.length) = pages := by
    unfold extractRange
    have h1 : pages.length - 1 + 1 = pages.length := by omega
    simp [h1]
  simp [splitRanges, hb, packageSplit, hext]

/-- Witness for C9 at a three-page document, including the parsed form of
the concrete range text `1-3`. -/
theorem split_roundTrip_witness :
    splitRanges [5, 6, 7] [(1, [5, 6, 7].length)] =
        ([(1, [5, 6, 7].length)], .ok (.single [5, 6, 7])) ∧
      splitPdf [5, 6, 7] "1-3" = ([(1, 3)], .ok (.single [5, 6, 7])) :=
  ⟨split_roundTrip [5, 6, 7] (by decide), by decide⟩

/-- C10 counterexample: the file name `pdf` has no dot, yet it is not
treated as unknown — its whole name is the extension key and the
Capability Table lists targets for it, so the convert interface offers a
conversion. -/
theorem noDot_treatedAsKnown_counterexample :
    ('.' ∉ ("pdf" : String).data) ∧ extOf "pdf" = "pdf" ∧
      availableFormats "pdf" ≠ [] ∧
      handleSubmit (some "pdf") "docx" = .convertRequested "docx" := by
  decide

/-- C10 (amended): the lookup key is the text after the last dot of the
file name, lowercased (so `X.PDF` is treated exactly like `x.pdf`); a
file name with no dot yields the whole name, lowercased, as the
extension, and is therefore treated as unknown only when that name is not
itself a known extension. -/
theorem extension_lookup_amended :
    (∀ (pre post : List Char), '.' ∉ post →
      extOfChars (pre ++ '.' :: post) = post.map Char.toLower) ∧
    (∀ (name : List Char), '.' ∉ name → extOfChars name = name.map Char.toLower) ∧
    (extOf "X.PDF" = extOf "x.pdf" ∧ extOf "X.PDF" = "pdf") ∧
    (∀ (name : String), '.' ∉ name.data →
      availableFormats name = SUPPORTED_CONVERSIONS ⟨name.data.map Char.toLower⟩) := by
  have hafter : ∀ (pre post : List Char), '.' ∉ post →
      extOfChars (pre ++ '.' :: post) = post.map Char.toLower := by
    intro pre post h
    unfold extOfChars jsSplitDot
    rw [jsSplit_getLastD_append, jsSplit_of_not_mem _ _ h]
    rfl
  have hnodot : ∀ (name : List Char), '.' ∉ name →
      extOfChars name = name.map Char.toLower :=
    fun name h => extOfChars_no_dot name h
  refine ⟨hafter, hnodot, ⟨by decide, by decide⟩, ?_⟩
  intro name h
  unfold availableFormats extOf
  rw [hnodot name.data h]

/-- Witness for the amended C10 at the concrete file name `x.PDF`. -/
theorem extension_lookup_amended_witness :
    ('.' ∉ ("PDF" : String).data) ∧
      extOfChars (['x'] ++ '.' :: ("PDF" : String).data) =
        ("PDF" : String).data.map Char.toLower :=
  ⟨by decide, extension_lookup_amended.1 ['x'] ("PDF" : String).data (by decide)⟩
